import Mathlib

/-!
Verification of the credis server core: a shallow embedding of the wire-protocol
codec (src/protocol.rs), the command model and dispatcher (src/command.rs), and
the replication state (src/main.rs, src/server.rs), with theorems settling the
frozen claims about the specification.

Modelling conventions:
* Rust byte slices and `String`s are `List Nat` (each element one byte value).
  String literals of the source are embedded through `strB`, which is exact for
  the ASCII literals that appear in the code.
* Machine integers are `Int`/`Nat` with explicit range checks where the source
  parses or casts (`i64`, `isize`, `u64`, the `as usize` cast).
* `SystemTime` is an abstract instant modelled as `Nat`; only its ordering and
  `+ Duration::from_millis` are used by the source.
* Fallible paths return `Except`; a Rust panic (a `.unwrap()` on a debug print,
  an out-of-range slice, or a debug-build arithmetic overflow) is `Option.none`
  in the decoder's `Option (Except ..)` result.
* The Unicode-aware `to_uppercase`/`to_lowercase` of the source are modelled as
  ASCII case mapping, which coincides with them on the ASCII verbs compared.
-/

namespace Credis

/-- Bytes of an ASCII string literal (exact for the ASCII literals of the source). -/
def strB (s : String) : List Nat := s.data.map Char.toNat

/-- ASCII uppercase mapping, modelling `str::to_uppercase` on ASCII data. -/
def asciiUpper (s : List Nat) : List Nat :=
  s.map (fun c => if 97 ≤ c ∧ c ≤ 122 then c - 32 else c)

/-- ASCII lowercase mapping, modelling `str::to_lowercase` on ASCII data. -/
def asciiLower (s : List Nat) : List Nat :=
  s.map (fun c => if 65 ≤ c ∧ c ≤ 90 then c + 32 else c)

/-- UTF-8 validation as performed by `std::str::from_utf8`, as a byte-at-a-time
state machine: `pending` is the number of continuation bytes still expected and
`lo` and `hi` bound the next expected byte (the first continuation byte after a
lead has a lead-specific range excluding overlongs and surrogates; later
continuation bytes are `0x80 ..= 0xBF`). -/
def utf8Go : List Nat → Nat → Nat → Nat → Bool
  | [], pending, _, _ => pending == 0
  | c :: rest, 0, _, _ =>
    if c ≤ 0x7F then utf8Go rest 0 0 0
    else if 0xC2 ≤ c ∧ c ≤ 0xDF then utf8Go rest 1 0x80 0xBF
    else if c = 0xE0 then utf8Go rest 2 0xA0 0xBF
    else if 0xE1 ≤ c ∧ c ≤ 0xEC then utf8Go rest 2 0x80 0xBF
    else if c = 0xED then utf8Go rest 2 0x80 0x9F
    else if 0xEE ≤ c ∧ c ≤ 0xEF then utf8Go rest 2 0x80 0xBF
    else if c = 0xF0 then utf8Go rest 3 0x90 0xBF
    else if 0xF1 ≤ c ∧ c ≤ 0xF3 then utf8Go rest 3 0x80 0xBF
    else if c = 0xF4 then utf8Go rest 3 0x80 0x8F
    else false
  | c :: rest, pending + 1, lo, hi =>
    (lo ≤ c && c ≤ hi) && utf8Go rest pending 0x80 0xBF

/-- Validity of a byte sequence as UTF-8 (`std::str::from_utf8` succeeds). -/
def utf8Valid (l : List Nat) : Bool := utf8Go l 0 0 0

/-- No adjacent `\r\n` pair inside the byte list. -/
def noCRLF : List Nat → Bool
  | [] => true
  | [_] => true
  | a :: b :: rest => !(a = 13 && b = 10) && noCRLF (b :: rest)

/-- `find_clrf_index` of src/protocol.rs: the position just past the first
adjacent `\r\n` window, `windows(2).position(..).map(|pos| pos + 2)`. -/
def find_clrf_index : List Nat → Option Nat
  | [] => none
  | [_] => none
  | a :: b :: rest =>
    if a = 13 ∧ b = 10 then some 2
    else (find_clrf_index (b :: rest)).map (· + 1)

/-- ASCII decimal digit. -/
def isDigit (c : Nat) : Bool := 48 ≤ c && c ≤ 57

/-- Numeric value of a list of ASCII digits, most significant first. -/
def digitsToNat (ds : List Nat) : Nat := ds.foldl (fun a c => a * 10 + (c - 48)) 0

/-- Parse a non-empty all-digit byte string to its value. -/
def parseNatDigits (ds : List Nat) : Option Nat :=
  if ds ≠ [] ∧ ds.all isDigit then some (digitsToNat ds) else none

/-- Rust `str::parse` for a signed integer type whose maximum is `bound - 1`
and minimum is `-bound`: an optional sign followed by decimal digits, range
checked. -/
def parseSigned (bound : Nat) (bs : List Nat) : Option Int :=
  match bs with
  | 43 :: rest =>
    (parseNatDigits rest).bind (fun n => if n < bound then some (n : Int) else none)
  | 45 :: rest =>
    (parseNatDigits rest).bind (fun n => if n ≤ bound then some (-(n : Int)) else none)
  | _ =>
    (parseNatDigits bs).bind (fun n => if n < bound then some (n : Int) else none)

/-- `str::parse::<i64>`. -/
def parseI64 (bs : List Nat) : Option Int := parseSigned (2 ^ 63) bs

/-- `str::parse::<isize>` on the 64-bit target. -/
def parseIsize (bs : List Nat) : Option Int := parseSigned (2 ^ 63) bs

/-- `str::parse::<u64>`: optional `+`, digits, range checked. -/
def parseU64 (bs : List Nat) : Option Nat :=
  match bs with
  | 43 :: rest => (parseNatDigits rest).bind (fun n => if n < 2 ^ 64 then some n else none)
  | _ => (parseNatDigits bs).bind (fun n => if n < 2 ^ 64 then some n else none)

/-- ASCII decimal rendering of a natural number, `<unsigned>::to_string`. -/
def natDecimal (n : Nat) : List Nat :=
  if _h : n < 10 then [48 + n] else natDecimal (n / 10) ++ [48 + n % 10]
  decreasing_by exact Nat.div_lt_self (by omega) (by omega)

/-- ASCII decimal rendering of an integer, `i64::to_string`. -/
def intDecimal (i : Int) : List Nat :=
  if i < 0 then 45 :: natDecimal i.natAbs else natDecimal i.toNat

/-- One more than `usize::MAX` on the 64-bit target. -/
def USIZE : Nat := 2 ^ 64

/-- The `Kind` enum of src/protocol.rs. -/
inductive Kind
  | SimpleString | Integer | BulkString | Array | SimpleError | Null | Boolean
  | Double | Big | BulkError | VerbatimString | Map | Set | Push
deriving DecidableEq

/-- `Kind::from_byte` of src/protocol.rs. -/
def Kind.from_byte (byte : Nat) : Option Kind :=
  if byte = 43 then some Kind.SimpleString      -- b'+'
  else if byte = 58 then some Kind.Integer      -- b':'
  else if byte = 36 then some Kind.BulkString   -- b'$'
  else if byte = 42 then some Kind.Array        -- b'*'
  else if byte = 45 then some Kind.SimpleError  -- b'-'
  else if byte = 95 then some Kind.Null         -- b'_'
  else if byte = 35 then some Kind.Boolean      -- b'#'
  else if byte = 44 then some Kind.Double       -- b','
  else if byte = 40 then some Kind.Big          -- b'('
  else if byte = 33 then some Kind.BulkError    -- b'!'
  else if byte = 61 then some Kind.VerbatimString -- b'='
  else if byte = 37 then some Kind.Map          -- b'%'
  else if byte = 126 then some Kind.Set         -- b'~'
  else if byte = 62 then some Kind.Push         -- b'>'
  else none

/-- The `RespError` enum of src/protocol.rs. -/
inductive RespError
  | InvalidData : String → RespError
  | InvalidType : String → RespError
deriving DecidableEq

/-- The `Resp` value enum of src/protocol.rs.  The bulk-string constructor is
called `Bulk`, the name the command module (src/command.rs) matches on. -/
inductive Resp
  | SimpleString : List Nat → Resp
  | Integer : Int → Resp
  | Bulk : Option (List Nat) → Resp
  | Array : List Resp → Resp
  | Null : Resp

mutual

/-- `Resp::encoded_string`/`encode` of src/protocol.rs, at the byte level. -/
def Resp.encode : Resp → List Nat
  | .SimpleString s => 43 :: (s ++ [13, 10])
  | .Integer i => 58 :: (intDecimal i ++ [13, 10])
  | .Bulk (some value) => 36 :: (natDecimal value.length ++ [13, 10] ++ value ++ [13, 10])
  | .Bulk none => 36 :: [45, 49, 13, 10]
  | .Array list => 42 :: (natDecimal list.length ++ [13, 10] ++ encodeList list)
  | .Null => [36, 45, 49, 13, 10]

/-- Concatenation of the encodings of the items of an array. -/
def encodeList : List Resp → List Nat
  | [] => []
  | v :: vs => Resp.encode v ++ encodeList vs

end

/-- `parse_string` of src/protocol.rs. -/
def parse_string (b : List Nat) : Option (Except RespError (Resp × Nat)) :=
  match find_clrf_index b with
  | none => some (.error (.InvalidData "improperly terminated data payload"))
  | some e =>
    let body := b.take (e - 2)
    if utf8Valid body then some (.ok (.SimpleString body, e))
    else some (.error (.InvalidData "Invalid UTF-8 in Simple String"))

/-- `parse_integer` of src/protocol.rs. -/
def parse_integer (b : List Nat) : Option (Except RespError (Resp × Nat)) :=
  match find_clrf_index b with
  | none => some (.error (.InvalidData "improperly terminated data payload for integer"))
  | some e =>
    let body := b.take (e - 2)
    if utf8Valid body then
      match parseI64 body with
      | some i => some (.ok (.Integer i, e))
      | none => some (.error (.InvalidData "Invalid integer value"))
    else some (.error (.InvalidData "Invalid UTF-8 in Integer"))

/-- `parse_bulk` of src/protocol.rs.  `none` models a panic: the debug-build
overflow of `data_start + len as usize` (or of `data_end + 2`) when the
declared length is negative but not `-1`. -/
def parse_bulk (b : List Nat) : Option (Except RespError (Resp × Nat)) :=
  match find_clrf_index b with
  | none => some (.error (.InvalidData "CLRF not found in bulk string length specification"))
  | some len_end =>
    let lenBytes := b.take (len_end - 2)
    if utf8Valid lenBytes then
      match parseIsize lenBytes with
      | none => some (.error (.InvalidData "Invalid bulk string length"))
      | some len =>
        if len = -1 then some (.ok (.Null, 0))
        else
          let data_start := len_end
          let lenU := (len % (USIZE : Int)).toNat   -- `len as usize`
          if data_start + lenU ≥ USIZE then none    -- add overflow panics (debug build)
          else
            let data_end := data_start + lenU
            if data_end + 2 ≥ USIZE then none       -- add overflow panics (debug build)
            else if data_end + 2 > b.length ∨ (b.drop data_end).take 2 ≠ [13, 10] then
              some (.error (.InvalidData "Improperly terminated data payload for bulk string"))
            else
              let data := (b.drop data_start).take (data_end - data_start)
              if utf8Valid data then some (.ok (.Bulk (some data), data_end + 2))
              else some (.error (.InvalidData "Invalid UTF-8 in bulk string"))
    else some (.error (.InvalidData "Invalid UTF-8 in bulk string length specification"))

/-- `find_clrf_index` never reports past the end and always reports at least 2. -/
theorem find_clrf_index_bounds :
    ∀ b e, find_clrf_index b = some e → 2 ≤ e ∧ e ≤ b.length := by
  intro b
  induction b with
  | nil => intro e h; simp [find_clrf_index] at h
  | cons a t ih =>
    intro e h
    cases t with
    | nil => simp [find_clrf_index] at h
    | cons c rest =>
      by_cases hab : a = 13 ∧ c = 10
      · simp only [find_clrf_index, if_pos hab] at h
        simp only [Option.some.injEq] at h
        subst h
        simp
      · simp only [find_clrf_index, if_neg hab, Option.map_eq_some'] at h
        obtain ⟨e', he', rfl⟩ := h
        have := ih e' he'
        simp only [List.length_cons] at *
        omega

mutual

/-- `readnext_resp` of src/protocol.rs.  The outer `Option` is `none` exactly
when the Rust code panics: the `println!` at entry does
`std::str::from_utf8(b).unwrap()`, which panics on non-UTF-8 input. -/
def readnext_resp : List Nat → Option (Except RespError (Resp × Nat))
  | [] => some (.error (.InvalidData "incoming bytestream empty"))
  | c :: rest =>
    if utf8Valid (c :: rest) then
      match Kind.from_byte c with
      | none => some (.error (.InvalidType "unrecognized datatype prefix byte"))
      | some k =>
        match k with
        | .SimpleString => parse_string rest
        | .Integer => parse_integer rest
        | .BulkString => parse_bulk rest
        | .Array => parse_array rest
        | _ => some (.error (.InvalidType "unsupported RESP type"))
    else none
  termination_by b => (b.length, 0)

/-- `parse_array` of src/protocol.rs.  Its two `println!` calls unwrap
`from_utf8` of the buffer and of the remainder: `none` on non-UTF-8 there. -/
def parse_array (b : List Nat) : Option (Except RespError (Resp × Nat)) :=
  if utf8Valid b then
    match hfc : find_clrf_index b with
    | none => some (.error (.InvalidData "CLRF not found in array length specification"))
    | some len_end =>
      let lenBytes := b.take (len_end - 2)
      if utf8Valid lenBytes then
        match parseIsize lenBytes with
        | none => some (.error (.InvalidData "Invalid array length"))
        | some len =>
          if len < -1 then some (.error (.InvalidData "array length cannot be < -1"))
          else if len = -1 then some (.ok (.Null, 0))
          else
            let rest := b.drop len_end
            if utf8Valid rest then
              match parse_array_items len.toNat rest with
              | none => none
              | some (.error e) => some (.error e)
              | some (.ok items) => some (.ok (.Array items, b.length))
            else none
      else some (.error (.InvalidData "Invalid UTF-8 in array length specification"))
  else none
  termination_by (b.length, 1)
  decreasing_by
    simp_wf
    have h2 := find_clrf_index_bounds b len_end hfc
    omega

/-- The `for _ in 0..len` loop of `parse_array`, each iteration being
`parse_next_arr_value` of src/protocol.rs: read one value, then skip
`size + 1` bytes (`&b[size + 1..]`, which panics when out of range, and whose
debug `println!` unwraps `from_utf8` of the remainder). -/
def parse_array_items : Nat → List Nat → Option (Except RespError (List Resp))
  | 0, _ => some (.ok [])
  | Nat.succ n, rest =>
    match rest with
    | [] => some (.error (.InvalidData "incoming bytestream empty"))
    | r0 :: rtail =>
      match readnext_resp (r0 :: rtail) with
      | none => none
      | some (.error e) => some (.error e)
      | some (.ok (_val, size)) =>
        if size + 1 > (r0 :: rtail).length then none   -- slice out of range panics
        else
          let rem := (r0 :: rtail).drop (size + 1)
          if utf8Valid rem then
            match parse_array_items n rem with
            | none => none
            | some (.error e) => some (.error e)
            | some (.ok items) => some (.ok (_val :: items))
          else none
  termination_by n rest => (rest.length, 2)

end

/-! ## Command model (src/command.rs) -/

/-- The `ReplconfArgs` enum of src/command.rs.  `Capa` carries the
`HashSet<String>` collected into a `Vec`; the model keeps insertion order. -/
inductive ReplconfArgs
  | Port : List Nat → ReplconfArgs
  | Capa : List (List Nat) → ReplconfArgs
deriving DecidableEq

/-- The `PsyncArgs` enum of src/command.rs. -/
inductive PsyncArgs
  | Question : List Nat → PsyncArgs
  | Id : List Nat → List Nat → PsyncArgs
deriving DecidableEq

/-- The `Command` enum of src/command.rs. -/
inductive Command
  | Echo : List Nat → Command
  | Ping : Command
  | Get : List Nat → Command
  | Set : List Nat → List Nat → Option Nat → Command
  | Info : Option (List Nat) → Command
  | Replconf : ReplconfArgs → Command
  | Psync : PsyncArgs → Command
deriving DecidableEq

/-- The `CommandError` enum of src/command.rs. -/
inductive CommandError
  | InvalidCommand : String → CommandError
  | InvalidArguments : String → CommandError
deriving DecidableEq

/-- `parse_echo` of src/command.rs. -/
def parse_echo (args : List Resp) : Except CommandError Command :=
  match args with
  | [_, .Bulk (some data)] => .ok (.Echo data)
  | [_, _] => .error (.InvalidArguments "Argument must be a bulk string")
  | _ => .error (.InvalidArguments "command expects exactly one argument")

/-- `parse_ping` of src/command.rs. -/
def parse_ping (args : List Resp) : Except CommandError Command :=
  match args with
  | [_] => .ok .Ping
  | _ => .error (.InvalidArguments "PING command expects no arguments")

/-- `parse_get` of src/command.rs: only `args.get(1)` is inspected, so
arguments after the key are not rejected. -/
def parse_get (args : List Resp) : Except CommandError Command :=
  match args[1]? with
  | some (Resp.Bulk (some key)) => .ok (.Get key)
  | _ => .error (.InvalidArguments "Usage: GET <key>")

/-- `parse_set` of src/command.rs. -/
def parse_set (args : List Resp) : Except CommandError Command :=
  match args with
  | [_, .Bulk (some key), .Bulk (some val)] => .ok (.Set key val none)
  | [_, .Bulk (some key), .Bulk (some val), .Bulk (some px), .Bulk (some millis)] =>
    if asciiUpper px = strB "PX" then
      match parseU64 millis with
      | some ms => .ok (.Set key val (some ms))
      | none => .error (.InvalidArguments "Invalid millisecond value")
    else .error (.InvalidArguments "Unrecognized argument")
  | _ => .error (.InvalidArguments "Usage: SET <key> <value> <px> <milliseconds>")

/-- `parse_info` of src/command.rs. -/
def parse_info (args : List Resp) : Except CommandError Command :=
  match args with
  | [_, .Bulk (some category)] =>
    if asciiUpper category = strB "REPLICATION" then .ok (.Info (some category))
    else .error (.InvalidArguments "Unrecognized argument")
  | _ => .error (.InvalidArguments "Usage: INFO <category>")

/-- `HashSet::insert` on the capability set, keeping insertion order. -/
def insertCapa (s : List (List Nat)) (c : List Nat) : List (List Nat) :=
  if c ∈ s then s else s ++ [c]

/-- The `while let Some(arg) = iter.next()` scan of `parse_replconf` in
src/command.rs.  A trailing sub-verb whose `iter.next()` is `None` falls out
of the loop and reaches the final `Ok(Capa ..)`. -/
def replconf_go : List Resp → List (List Nat) → Except CommandError Command
  | [], capabilities => .ok (.Replconf (.Capa capabilities))
  | arg :: rest, capabilities =>
    match arg with
    | .Bulk (some val) =>
      if asciiLower val = strB "capa" then
        match rest with
        | [] => .ok (.Replconf (.Capa capabilities))
        | next :: rest2 =>
          match next with
          | .Bulk (some nextv) => replconf_go rest2 (insertCapa capabilities nextv)
          | _ => .error (.InvalidArguments "No valid value found after \x27capa\x27")
      else if asciiLower val = strB "listening-port" then
        match rest with
        | [] => .ok (.Replconf (.Capa capabilities))
        | next :: _rest2 =>
          match next with
          | .Bulk (some port) => .ok (.Replconf (.Port port))
          | _ => .error (.InvalidArguments "No valid value found after \x27capa\x27")
      else .error (.InvalidArguments "Unrecognized arguments")
    | _ => .error (.InvalidArguments "Usage: REPLCONF listening-port | capa <ARGS>")

/-- `parse_replconf` of src/command.rs. -/
def parse_replconf (args : List Resp) : Except CommandError Command :=
  replconf_go (args.drop 1) []

/-- `parse_psync` of src/command.rs. -/
def parse_psync (args : List Resp) : Except CommandError Command :=
  match args with
  | [_, .Bulk (some psynccmd), .Bulk (some offset)] =>
    if asciiLower psynccmd = strB "?" then
      if offset = strB "-1" then .ok (.Psync (.Question offset))
      else .error (.InvalidArguments "Byte offset should be -1 when querying for replid")
    else .ok (.Psync (.Id psynccmd offset))
  | _ => .error (.InvalidArguments "Usage: PSYNC ? | <REPL_ID> <OFFSET>")

/-- `parse_command` of src/command.rs: dispatch on the uppercased first bulk. -/
def parse_command (args : List Resp) : Except CommandError Command :=
  match args.head? with
  | some (.Bulk (some command_str)) =>
    let u := asciiUpper command_str
    if u = strB "ECHO" then parse_echo args
    else if u = strB "PING" then parse_ping args
    else if u = strB "GET" then parse_get args
    else if u = strB "SET" then parse_set args
    else if u = strB "INFO" then parse_info args
    else if u = strB "REPLCONF" then parse_replconf args
    else if u = strB "PSYNC" then parse_psync args
    else .error (.InvalidCommand "Unsupported command")
  | _ => .error (.InvalidCommand "Command must be a bulk string")

/-- `Command::from_resp` of src/command.rs. -/
def Command.from_resp (resp : Resp) : Except CommandError Command :=
  match resp with
  | .Array args => parse_command args
  | _ => .error (.InvalidCommand "resp should be an array")

/-! ## Keyspace store and replication state (src/server.rs, src/main.rs) -/

/-- The `Query` cache entry of src/server.rs; times are abstract instants. -/
structure Query where
  value : List Nat
  created_at : Nat
  expiry : Option Nat
deriving DecidableEq

/-- The shared `HashMap<String, Query>` cache, as an association list with
distinct keys (every entry is created through `cacheInsert`). -/
def Cache := List (List Nat × Query)

instance : DecidableEq Cache := by unfold Cache; infer_instance

/-- `HashMap::get` (first matching key). -/
def cacheGet : Cache → List Nat → Option Query
  | [], _ => none
  | (k, q) :: rest, key => if k = key then some q else cacheGet rest key

/-- `HashMap::remove`. -/
def cacheRemove : Cache → List Nat → Cache
  | [], _ => []
  | (k, q) :: rest, key =>
    if k = key then cacheRemove rest key else (k, q) :: cacheRemove rest key

/-- `HashMap::insert` (overwrites unconditionally). -/
def cacheInsert (cache : Cache) (key : List Nat) (q : Query) : Cache :=
  (key, q) :: cacheRemove cache key

/-- The `Role` enum of src/main.rs / src/server.rs. -/
inductive Role
  | Master
  | Slave
deriving DecidableEq

/-- The `Info` replication state of src/main.rs / src/server.rs. -/
structure Info where
  role : Role
  master_replid : List Nat
  master_repl_offset : Nat
deriving DecidableEq

/-- `Info::role` (the string it renders already carries the `role:` prefix). -/
def Info.roleString (i : Info) : List Nat :=
  match i.role with
  | .Master => strB "role:master"
  | .Slave => strB "role:slave"

/-- `Info::id`. -/
def Info.id (i : Info) : List Nat := i.master_replid

/-- `Info::replication`: the `format!` string is
`"# Replication\nrole:{}\nmaster_replid:{}\nmaster_repl_offset:{}"`, whose
first placeholder receives `self.role()`. -/
def Info.replication (i : Info) : List Nat :=
  strB "# Replication" ++ [10] ++ strB "role:" ++ i.roleString ++ [10]
    ++ strB "master_replid:" ++ i.master_replid ++ [10]
    ++ strB "master_repl_offset:" ++ natDecimal i.master_repl_offset

/-- `execute_command` of src/command.rs, as a pure function of the shared
cache, the shared replication state and the current instant.  The returned
triple is (responses, cache after, info after). -/
def execute_command (cmd : Command) (cache : Cache) (info : Info) (now : Nat) :
    Except CommandError (List Resp × Cache × Info) :=
  match cmd with
  | .Echo arg => .ok ([.Bulk (some arg)], cache, info)
  | .Ping => .ok ([.SimpleString (strB "PONG")], cache, info)
  | .Get key =>
    match cacheGet cache key with
    | some value =>
      match value.expiry with
      | some timeout =>
        if timeout < now then .ok ([.Null], cacheRemove cache key, info)
        else .ok ([.Bulk (some value.value)], cache, info)
      | none => .ok ([.Bulk (some value.value)], cache, info)
    | none => .ok ([.Null], cache, info)
  | .Set key value timeout =>
    let expiry := timeout.map (fun t => now + t)
    .ok ([.SimpleString (strB "OK")],
      cacheInsert cache key { value := value, created_at := now, expiry := expiry }, info)
  | .Info category =>
    if category.isSome then .ok ([.Bulk (some info.replication)], cache, info)
    else .ok ([.Null], cache, info)
  | .Replconf c =>
    match c with
    | .Port _ => .ok ([.SimpleString (strB "OK")], cache, info)
    | .Capa _ => .ok ([.SimpleString (strB "OK")], cache, info)
  | .Psync p =>
    match p with
    | .Question _ =>
      .ok ([.SimpleString (strB "FULLRESYNC " ++ info.id ++ strB " 0")], cache, info)
    | .Id id offset =>
      match parseU64 offset with
      | none => .error (.InvalidArguments "byte offset must be a valid number")
      | some off =>
        .ok ([.SimpleString (strB "REPLCONF ACK " ++ natDecimal off)], cache,
          { info with master_replid := id, master_repl_offset := off })



/-! ## Decimal rendering and parsing lemmas -/

theorem natDecimal_eq (n : Nat) :
    natDecimal n = if n < 10 then [48 + n] else natDecimal (n / 10) ++ [48 + n % 10] := by
  rw [natDecimal]
  simp

theorem natDecimal_digits : ∀ n, ∀ c ∈ natDecimal n, 48 ≤ c ∧ c ≤ 57 := by
  intro n
  induction n using Nat.strong_induction_on with
  | _ n ih =>
    intro c hc
    rw [natDecimal_eq] at hc
    by_cases h : n < 10
    · rw [if_pos h] at hc
      have := List.mem_singleton.mp hc
      omega
    · rw [if_neg h] at hc
      rcases List.mem_append.mp hc with hc | hc
      · exact ih (n / 10) (Nat.div_lt_self (by omega) (by omega)) c hc
      · have := List.mem_singleton.mp hc
        have := Nat.mod_lt n (show 0 < 10 by omega)
        omega

theorem natDecimal_ne_nil (n : Nat) : natDecimal n ≠ [] := by
  rw [natDecimal_eq]
  by_cases h : n < 10 <;> simp [h]

theorem digitsToNat_append_digit (ds : List Nat) (d : Nat) :
    digitsToNat (ds ++ [d]) = digitsToNat ds * 10 + (d - 48) := by
  simp [digitsToNat, List.foldl_append]

theorem digitsToNat_natDecimal : ∀ n, digitsToNat (natDecimal n) = n := by
  intro n
  induction n using Nat.strong_induction_on with
  | _ n ih =>
    rw [natDecimal_eq]
    by_cases h : n < 10
    · rw [if_pos h]
      simp [digitsToNat]
    · rw [if_neg h, digitsToNat_append_digit, ih (n / 10) (Nat.div_lt_self (by omega) (by omega))]
      omega

theorem parseNatDigits_natDecimal (n : Nat) : parseNatDigits (natDecimal n) = some n := by
  have hd := natDecimal_digits n
  rw [parseNatDigits, if_pos, digitsToNat_natDecimal]
  refine ⟨natDecimal_ne_nil n, ?_⟩
  rw [List.all_eq_true]
  intro c hc
  have := hd c hc
  simp [isDigit]
  omega

theorem natDecimal_head_digit (n : Nat) :
    ∃ d ds, natDecimal n = d :: ds ∧ 48 ≤ d ∧ d ≤ 57 := by
  rcases hc : natDecimal n with _ | ⟨d, ds⟩
  · exact absurd hc (natDecimal_ne_nil n)
  · exact ⟨d, ds, rfl, natDecimal_digits n d (by rw [hc]; simp)⟩

theorem parseSigned_digit_head (bound d : Nat) (ds : List Nat) (h1 : 48 ≤ d) (h2 : d ≤ 57) :
    parseSigned bound (d :: ds)
      = (parseNatDigits (d :: ds)).bind (fun n => if n < bound then some (n : Int) else none) := by
  rw [parseSigned.eq_def]
  split
  · rename_i rest heq
    exfalso
    injection heq with hh _
    omega
  · rename_i rest heq
    exfalso
    injection heq with hh _
    omega
  · rfl

theorem parseSigned_neg_head (bound : Nat) (ds : List Nat) :
    parseSigned bound (45 :: ds)
      = (parseNatDigits ds).bind (fun n => if n ≤ bound then some (-(n : Int)) else none) := by
  rw [parseSigned.eq_def]

theorem parseSigned_natDecimal (bound n : Nat) (h : n < bound) :
    parseSigned bound (natDecimal n) = some (n : Int) := by
  obtain ⟨d, ds, hcons, hd1, hd2⟩ := natDecimal_head_digit n
  rw [hcons, parseSigned_digit_head bound d ds hd1 hd2, ← hcons, parseNatDigits_natDecimal]
  simp [h]

theorem parseU64_digit_head (d : Nat) (ds : List Nat) (h1 : 48 ≤ d) (h2 : d ≤ 57) :
    parseU64 (d :: ds)
      = (parseNatDigits (d :: ds)).bind (fun n => if n < 2 ^ 64 then some n else none) := by
  rw [parseU64.eq_def]
  split
  · rename_i rest heq
    exfalso
    injection heq with hh _
    omega
  · rfl

theorem parseU64_natDecimal (n : Nat) (h : n < 2 ^ 64) : parseU64 (natDecimal n) = some n := by
  obtain ⟨d, ds, hcons, hd1, hd2⟩ := natDecimal_head_digit n
  rw [hcons, parseU64_digit_head d ds hd1 hd2, ← hcons, parseNatDigits_natDecimal]
  simp [h]
  omega

theorem parseI64_intDecimal (i : Int) (h1 : -(2 ^ 63) ≤ i) (h2 : i < 2 ^ 63) :
    parseI64 (intDecimal i) = some i := by
  rw [parseI64, intDecimal]
  by_cases hneg : i < 0
  · rw [if_pos hneg, parseSigned_neg_head, parseNatDigits_natDecimal]
    have hle : i.natAbs ≤ 2 ^ 63 := by omega
    simp only [Option.some_bind, if_pos hle, Option.some.injEq]
    omega
  · rw [if_neg hneg]
    have ht : (i.toNat : Int) = i := by omega
    rw [parseSigned_natDecimal (2 ^ 63) i.toNat (by omega), ht]

/-- A length below `2 ^ 63` prints in at most 19 digits (`2 ^ 63 < 10 ^ 19`). -/
theorem natDecimal_length_le : ∀ k n, n < 10 ^ k → 1 ≤ k → (natDecimal n).length ≤ k := by
  intro k
  induction k with
  | zero => omega
  | succ k ih =>
    intro n hn _
    rw [natDecimal_eq]
    by_cases h : n < 10
    · rw [if_pos h]
      simp
    · rw [if_neg h]
      have hk : 1 ≤ k := by
        by_contra hk0
        have : k = 0 := by omega
        subst this
        simp at hn
        omega
      have hdiv : n / 10 < 10 ^ k := by
        rw [pow_succ] at hn
        omega
      have := ih (n / 10) hdiv hk
      simp
      omega

/-! ## UTF-8 and framing lemmas -/

theorem utf8Go_state0_irrel (b : List Nat) (lo hi lo2 hi2 : Nat) :
    utf8Go b 0 lo hi = utf8Go b 0 lo2 hi2 := by
  cases b <;> rfl

theorem utf8Go_append :
    ∀ (a : List Nat) (p lo hi : Nat) (b : List Nat),
      utf8Go a p lo hi = true → utf8Go b 0 0 0 = true → utf8Go (a ++ b) p lo hi = true := by
  intro a
  induction a with
  | nil =>
    intro p lo hi b ha hb
    simp only [utf8Go, beq_iff_eq] at ha
    subst ha
    rw [List.nil_append, utf8Go_state0_irrel b lo hi 0 0]
    exact hb
  | cons c t ih =>
    intro p lo hi b ha hb
    cases p with
    | zero =>
      rw [List.cons_append]
      simp only [utf8Go] at ha ⊢
      by_cases h1 : c ≤ 127
      · rw [if_pos h1] at ha ⊢; exact ih _ _ _ b ha hb
      rw [if_neg h1] at ha ⊢
      by_cases h2 : 194 ≤ c ∧ c ≤ 223
      · rw [if_pos h2] at ha ⊢; exact ih _ _ _ b ha hb
      rw [if_neg h2] at ha ⊢
      by_cases h3 : c = 224
      · rw [if_pos h3] at ha ⊢; exact ih _ _ _ b ha hb
      rw [if_neg h3] at ha ⊢
      by_cases h4 : 225 ≤ c ∧ c ≤ 236
      · rw [if_pos h4] at ha ⊢; exact ih _ _ _ b ha hb
      rw [if_neg h4] at ha ⊢
      by_cases h5 : c = 237
      · rw [if_pos h5] at ha ⊢; exact ih _ _ _ b ha hb
      rw [if_neg h5] at ha ⊢
      by_cases h6 : 238 ≤ c ∧ c ≤ 239
      · rw [if_pos h6] at ha ⊢; exact ih _ _ _ b ha hb
      rw [if_neg h6] at ha ⊢
      by_cases h7 : c = 240
      · rw [if_pos h7] at ha ⊢; exact ih _ _ _ b ha hb
      rw [if_neg h7] at ha ⊢
      by_cases h8 : 241 ≤ c ∧ c ≤ 243
      · rw [if_pos h8] at ha ⊢; exact ih _ _ _ b ha hb
      rw [if_neg h8] at ha ⊢
      by_cases h9 : c = 244
      · rw [if_pos h9] at ha ⊢; exact ih _ _ _ b ha hb
      rw [if_neg h9] at ha ⊢
      exact absurd ha (by simp)
    | succ k =>
      rw [List.cons_append]
      simp only [utf8Go, Bool.and_eq_true] at ha ⊢
      exact ⟨ha.1, ih _ _ _ b ha.2 hb⟩

theorem utf8Valid_append (a b : List Nat) (ha : utf8Valid a = true) (hb : utf8Valid b = true) :
    utf8Valid (a ++ b) = true :=
  utf8Go_append a 0 0 0 b ha hb

theorem utf8Valid_cons_ascii (c : Nat) (r : List Nat) (h : c ≤ 127) :
    utf8Valid (c :: r) = utf8Valid r := by
  simp only [utf8Valid, utf8Go, if_pos h]

theorem utf8Valid_ascii : ∀ s : List Nat, (∀ c ∈ s, c ≤ 127) → utf8Valid s = true := by
  intro s
  induction s with
  | nil => intro _; rfl
  | cons c t ih =>
    intro h
    rw [utf8Valid_cons_ascii c t (h c (by simp))]
    exact ih (fun x hx => h x (by simp [hx]))

theorem noCRLF_of_no13 : ∀ s : List Nat, (∀ c ∈ s, c ≠ 13) → noCRLF s = true := by
  intro s
  induction s with
  | nil => intro _; rfl
  | cons a t ih =>
    intro h
    cases t with
    | nil => rfl
    | cons b rest =>
      have ha : a ≠ 13 := h a (by simp)
      simp only [noCRLF, Bool.and_eq_true, Bool.not_eq_true']
      refine ⟨by simp [ha], ?_⟩
      exact ih (fun x hx => h x (by simp [hx]))

theorem natDecimal_noCRLF (n : Nat) : noCRLF (natDecimal n) = true := by
  refine noCRLF_of_no13 _ (fun c hc => ?_)
  have := natDecimal_digits n c hc
  omega

theorem natDecimal_ascii (n : Nat) : utf8Valid (natDecimal n) = true := by
  refine utf8Valid_ascii _ (fun c hc => ?_)
  have := natDecimal_digits n c hc
  omega

theorem intDecimal_noCRLF (i : Int) : noCRLF (intDecimal i) = true := by
  rw [intDecimal]
  by_cases h : i < 0
  · rw [if_pos h]
    refine noCRLF_of_no13 _ (fun c hc => ?_)
    rcases List.mem_cons.mp hc with hc | hc
    · omega
    · have := natDecimal_digits i.natAbs c hc
      omega
  · rw [if_neg h]
    exact natDecimal_noCRLF _

theorem intDecimal_ascii (i : Int) : utf8Valid (intDecimal i) = true := by
  rw [intDecimal]
  by_cases h : i < 0
  · rw [if_pos h]
    refine utf8Valid_ascii _ (fun c hc => ?_)
    rcases List.mem_cons.mp hc with hc | hc
    · omega
    · have := natDecimal_digits i.natAbs c hc
      omega
  · rw [if_neg h]
    exact natDecimal_ascii _

theorem intDecimal_ne_nil (i : Int) : intDecimal i ≠ [] := by
  rw [intDecimal]
  by_cases h : i < 0
  · simp [h]
  · rw [if_neg h]
    exact natDecimal_ne_nil _

/-- The first CRLF of `s ++ [13, 10] ++ t` is right after `s` when `s` has no
CRLF window of its own. -/
theorem find_clrf_append :
    ∀ (s : List Nat), noCRLF s = true → ∀ t, find_clrf_index (s ++ 13 :: 10 :: t) = some (s.length + 2) := by
  intro s
  induction s with
  | nil =>
    intro _ t
    simp [find_clrf_index]
  | cons a u ih =>
    intro hno t
    cases u with
    | nil =>
      have hne : ¬(a = 13 ∧ (13 : Nat) = 10) := by omega
      simp only [List.cons_append, List.nil_append, find_clrf_index, if_neg hne]
      simp
    | cons b rest =>
      simp only [noCRLF, Bool.and_eq_true, Bool.not_eq_true'] at hno
      have hab : ¬(a = 13 ∧ b = 10) := by
        intro ⟨h1, h2⟩
        simp [h1, h2] at hno
      have H := ih hno.2 t
      simp only [List.cons_append] at H ⊢
      rw [find_clrf_index, if_neg hab, H]
      simp only [Option.map_some, List.length_cons]
      congr 1

/-! ## Round-trip infrastructure -/

/-- Well-formed flat (non-array, non-null) values: exactly the values the Rust
type can hold (strings are valid UTF-8 with length below `isize::MAX`; the
integer is an `i64`), with the protocol invariant that a Simple Status carries
no CRLF. -/
def wfFlat : Resp → Bool
  | .SimpleString s => utf8Valid s && noCRLF s
  | .Integer i => decide (-(2 ^ 63) ≤ i) && decide (i < 2 ^ 63)
  | .Bulk (some d) => utf8Valid d && decide (d.length < 2 ^ 63)
  | _ => false

/-- Well-formed values for the round-trip: flat values and arrays of flat
values. -/
def wfValue : Resp → Bool
  | .Array l => decide (l.length < 2 ^ 63) && l.all wfFlat
  | v => wfFlat v

theorem utf8Valid_crlf_append (t : List Nat) (ht : utf8Valid t = true) :
    utf8Valid (13 :: 10 :: t) = true := by
  rw [utf8Valid_cons_ascii 13 _ (by omega), utf8Valid_cons_ascii 10 _ (by omega)]
  exact ht

theorem Resp.encode_ne_nil (v : Resp) : v.encode ≠ [] := by
  cases v with
  | Bulk o => cases o <;> simp [Resp.encode]
  | _ => simp [Resp.encode]

theorem encode_utf8_flat (v : Resp) (hv : wfFlat v = true) : utf8Valid v.encode = true := by
  cases v with
  | SimpleString s =>
    simp only [wfFlat, Bool.and_eq_true] at hv
    rw [Resp.encode, utf8Valid_cons_ascii 43 _ (by omega)]
    exact utf8Valid_append s [13, 10] hv.1 (by decide)
  | Integer i =>
    rw [Resp.encode, utf8Valid_cons_ascii 58 _ (by omega)]
    exact utf8Valid_append _ [13, 10] (intDecimal_ascii i) (by decide)
  | Bulk o =>
    cases o with
    | none => simp [wfFlat] at hv
    | some d =>
      simp only [wfFlat, Bool.and_eq_true] at hv
      rw [Resp.encode, utf8Valid_cons_ascii 36 _ (by omega)]
      refine utf8Valid_append _ [13, 10] ?_ (by decide)
      refine utf8Valid_append _ d ?_ hv.1
      exact utf8Valid_append _ [13, 10] (natDecimal_ascii d.length) (by decide)
  | Array l => simp [wfFlat] at hv
  | Null => simp [wfFlat] at hv

theorem encodeList_utf8 (l : List Resp) (hl : ∀ v ∈ l, wfFlat v = true) :
    utf8Valid (encodeList l) = true := by
  induction l with
  | nil => rfl
  | cons v vs ih =>
    rw [encodeList]
    exact utf8Valid_append _ _ (encode_utf8_flat v (hl v (by simp)))
      (ih (fun x hx => hl x (by simp [hx])))

theorem parse_string_spec (s t : List Nat) (hs1 : utf8Valid s = true) (hs2 : noCRLF s = true) :
    parse_string (s ++ 13 :: 10 :: t) = some (.ok (.SimpleString s, s.length + 2)) := by
  have htake : (s ++ 13 :: 10 :: t).take (s.length + 2 - 2) = s :=
    List.take_left' (by omega)
  simp only [parse_string]
  rw [find_clrf_append s hs2 t]
  simp [htake, hs1]

theorem parse_integer_spec (i : Int) (t : List Nat) (h1 : -(2 ^ 63) ≤ i) (h2 : i < 2 ^ 63) :
    parse_integer (intDecimal i ++ 13 :: 10 :: t)
      = some (.ok (.Integer i, (intDecimal i).length + 2)) := by
  have htake : (intDecimal i ++ 13 :: 10 :: t).take ((intDecimal i).length + 2 - 2) = intDecimal i :=
    List.take_left' (by omega)
  simp only [parse_integer]
  rw [find_clrf_append (intDecimal i) (intDecimal_noCRLF i) t]
  simp [htake, intDecimal_ascii i, parseI64_intDecimal i h1 h2]

theorem parse_bulk_spec (d t : List Nat) (hd : utf8Valid d = true) (hlen : d.length < 2 ^ 63) :
    parse_bulk (natDecimal d.length ++ 13 :: 10 :: (d ++ 13 :: 10 :: t))
      = some (.ok (.Bulk (some d), (natDecimal d.length).length + 2 + d.length + 2)) := by
  have hD19 : (natDecimal d.length).length ≤ 19 := by
    refine natDecimal_length_le 19 d.length ?_ (by omega)
    have : (2 : Nat) ^ 63 ≤ 10 ^ 19 := by norm_num
    omega
  have htake : (natDecimal d.length ++ 13 :: 10 :: (d ++ 13 :: 10 :: t)).take
      ((natDecimal d.length).length + 2 - 2) = natDecimal d.length :=
    List.take_left' (by omega)
  have hiz : parseIsize (natDecimal d.length) = some ((d.length : Nat) : Int) :=
    parseSigned_natDecimal (2 ^ 63) d.length hlen
  have hne1 : ¬(((d.length : Nat) : Int) = -1) := by omega
  have hmod : ((((d.length : Nat) : Int)) % ((USIZE : Nat) : Int)).toNat = d.length := by
    rw [USIZE]
    push_cast
    omega
  have hov1 : ¬((natDecimal d.length).length + 2 + d.length ≥ USIZE) := by
    rw [USIZE]
    omega
  have hov2 : ¬((natDecimal d.length).length + 2 + d.length + 2 ≥ USIZE) := by
    rw [USIZE]
    omega
  have hlenb : (natDecimal d.length ++ 13 :: 10 :: (d ++ 13 :: 10 :: t)).length
      = (natDecimal d.length).length + 2 + d.length + 2 + t.length := by
    simp
    omega
  have hnb : ¬((natDecimal d.length).length + 2 + d.length + 2
      > (natDecimal d.length ++ 13 :: 10 :: (d ++ 13 :: 10 :: t)).length) := by
    rw [hlenb]
    omega
  have hdrop2 : (natDecimal d.length ++ 13 :: 10 :: (d ++ 13 :: 10 :: t)).drop
      ((natDecimal d.length).length + 2 + d.length) = 13 :: 10 :: t := by
    have hsplit : natDecimal d.length ++ 13 :: 10 :: (d ++ 13 :: 10 :: t)
        = ((natDecimal d.length ++ [13, 10]) ++ d) ++ (13 :: 10 :: t) := by
      simp
    rw [hsplit]
    refine List.drop_left' ?_
    simp
    omega
  have hdrop1 : (natDecimal d.length ++ 13 :: 10 :: (d ++ 13 :: 10 :: t)).drop
      ((natDecimal d.length).length + 2) = d ++ 13 :: 10 :: t := by
    have hsplit : natDecimal d.length ++ 13 :: 10 :: (d ++ 13 :: 10 :: t)
        = (natDecimal d.length ++ [13, 10]) ++ (d ++ 13 :: 10 :: t) := by
      simp
    rw [hsplit]
    exact List.drop_left' (by simp)
  simp only [parse_bulk]
  rw [find_clrf_append (natDecimal d.length) (natDecimal_noCRLF _) (d ++ 13 :: 10 :: t)]
  simp only [htake, natDecimal_ascii d.length, if_pos, hiz, hmod]
  rw [if_neg hne1]
  rw [if_neg hov1]
  simp only [ge_iff_le, Nat.add_assoc]
  rw [if_neg (by omega : ¬(USIZE ≤ (natDecimal d.length).length + (2 + (d.length + 2))))]
  have hcrlf : (((natDecimal d.length ++ 13 :: 10 :: (d ++ 13 :: 10 :: t)).drop
      ((natDecimal d.length).length + (2 + d.length))).take 2) = [13, 10] := by
    rw [← Nat.add_assoc, hdrop2]
    rfl
  rw [if_neg ?hterm]
  case hterm =>
    push_neg
    constructor
    · rw [hlenb]
      omega
    · rw [hcrlf]
  have hdata : (((natDecimal d.length ++ 13 :: 10 :: (d ++ 13 :: 10 :: t)).drop
      ((natDecimal d.length).length + 2)).take
      ((natDecimal d.length).length + (2 + d.length) - ((natDecimal d.length).length + 2))) = d := by
    rw [hdrop1]
    have : (natDecimal d.length).length + (2 + d.length) - ((natDecimal d.length).length + 2)
        = d.length := by omega
    rw [this]
    exact List.take_left' rfl
  rw [hdata, if_pos hd]

/-- Decoding the encoding of a well-formed flat value, with arbitrary valid
UTF-8 bytes following it: the value comes back and the consumed count is one
less than the encoded length (`readnext_resp` strips the prefix byte before
handing the rest to the element parsers, whose consumed counts do not include
it). -/
theorem flat_decode (v : Resp) (hv : wfFlat v = true) (t : List Nat) (ht : utf8Valid t = true) :
    readnext_resp (v.encode ++ t) = some (.ok (v, v.encode.length - 1)) := by
  cases v with
  | SimpleString s =>
    simp only [wfFlat, Bool.and_eq_true] at hv
    have hform : (Resp.SimpleString s).encode ++ t = 43 :: (s ++ 13 :: 10 :: t) := by
      simp [Resp.encode]
    have hu : utf8Valid (43 :: (s ++ 13 :: 10 :: t)) = true := by
      rw [utf8Valid_cons_ascii _ _ (by omega)]
      exact utf8Valid_append _ _ hv.1 (utf8Valid_crlf_append t ht)
    rw [hform]
    simp only [readnext_resp, hu, if_pos]
    simp only [Kind.from_byte]
    norm_num
    rw [parse_string_spec s t hv.1 hv.2]
    simp [Resp.encode]
  | Integer i =>
    simp only [wfFlat, Bool.and_eq_true, decide_eq_true_eq] at hv
    have hform : (Resp.Integer i).encode ++ t = 58 :: (intDecimal i ++ 13 :: 10 :: t) := by
      simp [Resp.encode]
    have hu : utf8Valid (58 :: (intDecimal i ++ 13 :: 10 :: t)) = true := by
      rw [utf8Valid_cons_ascii _ _ (by omega)]
      exact utf8Valid_append _ _ (intDecimal_ascii i) (utf8Valid_crlf_append t ht)
    rw [hform]
    simp only [readnext_resp, hu, if_pos]
    simp only [Kind.from_byte]
    norm_num
    rw [parse_integer_spec i t hv.1 hv.2]
    have h2 : (Resp.Integer i).encode.length - 1 = (intDecimal i).length + 2 := by
      simp only [Resp.encode, List.length_cons, List.length_append, List.length_nil]
      omega
    rw [h2]
  | Bulk o =>
    cases o with
    | none => simp [wfFlat] at hv
    | some d =>
      simp only [wfFlat, Bool.and_eq_true, decide_eq_true_eq] at hv
      have hform : (Resp.Bulk (some d)).encode ++ t
          = 36 :: (natDecimal d.length ++ 13 :: 10 :: (d ++ 13 :: 10 :: t)) := by
        simp [Resp.encode]
      have hu : utf8Valid (36 :: (natDecimal d.length ++ 13 :: 10 :: (d ++ 13 :: 10 :: t)))
          = true := by
        rw [utf8Valid_cons_ascii _ _ (by omega)]
        refine utf8Valid_append _ _ (natDecimal_ascii d.length) ?_
        refine utf8Valid_crlf_append _ ?_
        exact utf8Valid_append _ _ hv.1 (utf8Valid_crlf_append t ht)
      rw [hform]
      simp only [readnext_resp, hu, if_pos]
      simp only [Kind.from_byte]
      norm_num
      rw [parse_bulk_spec d t hv.1 hv.2]
      have h2 : (Resp.Bulk (some d)).encode.length - 1
          = (natDecimal d.length).length + 2 + d.length + 2 := by
        simp only [Resp.encode, List.length_cons, List.length_append, List.length_nil]
        omega
      rw [h2]
  | Array l => simp [wfFlat] at hv
  | Null => simp [wfFlat] at hv


/-- The element loop of `parse_array` walks exactly the concatenated encodings
of a list of well-formed flat values and returns those values: each
`parse_next_arr_value` step skips `size + 1` bytes, which for a flat element is
exactly its encoded length. -/
theorem parse_array_items_spec :
    ∀ l : List Resp, (∀ v ∈ l, wfFlat v = true) →
      parse_array_items l.length (encodeList l) = some (.ok l) := by
  intro l
  induction l with
  | nil =>
    intro _
    simp [parse_array_items]
  | cons v vs ih =>
    intro h
    have hv := h v (by simp)
    have hvs : ∀ x ∈ vs, wfFlat x = true := fun x hx => h x (by simp [hx])
    have hE : utf8Valid (encodeList vs) = true := encodeList_utf8 vs hvs
    have hdec := flat_decode v hv (encodeList vs) hE
    obtain ⟨c, cs, hc⟩ := List.exists_cons_of_ne_nil (Resp.encode_ne_nil v)
    have hlen1 : 1 ≤ v.encode.length := by rw [hc]; simp
    have hshape : encodeList (v :: vs) = c :: (cs ++ encodeList vs) := by
      rw [encodeList, hc, List.cons_append]
    rw [List.length_cons, hshape]
    simp only [parse_array_items]
    rw [show (c :: (cs ++ encodeList vs)) = v.encode ++ encodeList vs by
      rw [hc, List.cons_append]]
    rw [hdec]
    have hgt : ¬(v.encode.length - 1 + 1 > (v.encode ++ encodeList vs).length) := by
      simp
      omega
    have hdrop : (v.encode ++ encodeList vs).drop (v.encode.length - 1 + 1)
        = encodeList vs := by
      have he : v.encode.length - 1 + 1 = v.encode.length := by omega
      rw [he]
      exact List.drop_left _ _
    simp [hgt, hdrop, hE, ih hvs]
    omega

/-- Decoding the body of an encoded array of flat values: the whole remaining
buffer is reported as consumed. -/
theorem parse_array_flat (l : List Resp) (hl : ∀ v ∈ l, wfFlat v = true)
    (hlen : l.length < 2 ^ 63) :
    parse_array (natDecimal l.length ++ 13 :: 10 :: encodeList l)
      = some (.ok (.Array l,
          (natDecimal l.length ++ 13 :: 10 :: encodeList l).length)) := by
  have hED : utf8Valid (encodeList l) = true := encodeList_utf8 l hl
  have hb : utf8Valid (natDecimal l.length ++ 13 :: 10 :: encodeList l) = true :=
    utf8Valid_append _ _ (natDecimal_ascii _) (utf8Valid_crlf_append _ hED)
  have htake : (natDecimal l.length ++ 13 :: 10 :: encodeList l).take
      ((natDecimal l.length).length + 2 - 2) = natDecimal l.length :=
    List.take_left' (by omega)
  have hiz : parseIsize (natDecimal l.length) = some ((l.length : Nat) : Int) :=
    parseSigned_natDecimal (2 ^ 63) l.length hlen
  have hlt : ¬(((l.length : Nat) : Int) < -1) := by omega
  have hne1 : ¬(((l.length : Nat) : Int) = -1) := by omega
  have hdropE : (natDecimal l.length ++ 13 :: 10 :: encodeList l).drop
      ((natDecimal l.length).length + 2) = encodeList l := by
    have hsplit : natDecimal l.length ++ 13 :: 10 :: encodeList l
        = (natDecimal l.length ++ [13, 10]) ++ encodeList l := by
      simp
    rw [hsplit]
    exact List.drop_left' (by simp)
  simp only [parse_array, hb, if_pos]
  rw [find_clrf_append (natDecimal l.length) (natDecimal_noCRLF _) (encodeList l)]
  simp only [htake, natDecimal_ascii l.length, if_pos, hiz]
  rw [if_neg hlt, if_neg hne1]
  rw [hdropE]
  simp only [hED, if_pos, Int.toNat_natCast]
  rw [parse_array_items_spec l hl]


/-! ## Claim C1: codec round-trip -/

/-- C1 (amended).  For every value the codec's Rust type can hold that is a
Simple Status without CRLF, an Integer, a present Bulk, or an Array of such
flat values, decoding the encoding returns the value together with a consumed
count of `len(encode(v)) - 1` — one byte less than the encoded length (the
caller compensates by always skipping one extra byte).  An absent Bulk and
Null both encode as `$-1\r\n` and decode to `(Null, 0)`: the absent Bulk does
not round-trip to itself, and the null consumed counts are 0, not the frame
length. -/
theorem credis_C1 :
    (∀ v : Resp, wfValue v = true →
      readnext_resp v.encode = some (.ok (v, v.encode.length - 1)))
    ∧ readnext_resp (Resp.Bulk none).encode = some (.ok (Resp.Null, 0))
    ∧ readnext_resp Resp.Null.encode = some (.ok (Resp.Null, 0)) := by
  refine ⟨?_, ?_, ?_⟩
  · intro v hv
    cases v with
    | Array l =>
      simp only [wfValue, Bool.and_eq_true, decide_eq_true_eq, List.all_eq_true] at hv
      have hform : (Resp.Array l).encode
          = 42 :: (natDecimal l.length ++ 13 :: 10 :: encodeList l) := by
        simp [Resp.encode]
      have hED : utf8Valid (encodeList l) = true := encodeList_utf8 l hv.2
      have hbv : utf8Valid (natDecimal l.length ++ 13 :: 10 :: encodeList l) = true :=
        utf8Valid_append _ _ (natDecimal_ascii _) (utf8Valid_crlf_append _ hED)
      have hu : utf8Valid (42 :: (natDecimal l.length ++ 13 :: 10 :: encodeList l)) = true := by
        rw [utf8Valid_cons_ascii _ _ (by omega)]
        exact hbv
      rw [hform]
      simp only [readnext_resp, hu, if_pos]
      simp only [Kind.from_byte]
      norm_num
      rw [parse_array_flat l hv.2 hv.1]
      simp
    | SimpleString s =>
      have hd := flat_decode (Resp.SimpleString s) hv [] rfl
      rwa [List.append_nil] at hd
    | Integer i =>
      have hd := flat_decode (Resp.Integer i) hv [] rfl
      rwa [List.append_nil] at hd
    | Bulk o =>
      cases o with
      | some d =>
        have hd := flat_decode (Resp.Bulk (some d)) hv [] rfl
        rwa [List.append_nil] at hd
      | none => simp [wfValue, wfFlat] at hv
    | Null => simp [wfValue, wfFlat] at hv
  · have he : (Resp.Bulk (none : Option (List Nat))).encode = [36, 45, 49, 13, 10] := by
      simp [Resp.encode]
    rw [he]
    simp [readnext_resp, parse_bulk, Kind.from_byte, find_clrf_index, parseIsize,
      parseSigned, parseNatDigits, isDigit, digitsToNat, USIZE]
    decide
  · have he : (Resp.Null).encode = [36, 45, 49, 13, 10] := by
      simp [Resp.encode]
    rw [he]
    simp [readnext_resp, parse_bulk, Kind.from_byte, find_clrf_index, parseIsize,
      parseSigned, parseNatDigits, isDigit, digitsToNat, USIZE]
    decide

/-- Witness for C1 at the concrete value `Bulk "hey"`. -/
theorem credis_C1_witness :
    readnext_resp (Resp.Bulk (some (strB "hey"))).encode
      = some (.ok (Resp.Bulk (some (strB "hey")),
          (Resp.Bulk (some (strB "hey"))).encode.length - 1)) :=
  credis_C1.1 (Resp.Bulk (some (strB "hey"))) (by decide)

/-- Counterexample to C1 as stated: for `Integer 0` the encoding is the four
bytes `:0\r\n` but decoding reports only 3 bytes consumed, so
`decode_one(encode(v)) ≠ (v, len(encode(v)))`. -/
theorem credis_C1_counterexample :
    readnext_resp (Resp.Integer 0).encode = some (.ok (.Integer 0, 3))
    ∧ (Resp.Integer 0).encode.length = 4
    ∧ readnext_resp (Resp.Integer 0).encode
        ≠ some (.ok (.Integer 0, (Resp.Integer 0).encode.length)) := by
  have he : (Resp.Integer 0).encode = [58, 48, 13, 10] := by
    simp [Resp.encode, intDecimal, natDecimal]
  have hv : readnext_resp [58, 48, 13, 10] = some (.ok (.Integer 0, 3)) := by
    simp [readnext_resp, parse_integer, Kind.from_byte, find_clrf_index, parseI64,
      parseSigned, parseNatDigits, isDigit, digitsToNat]
    decide
  refine ⟨by rw [he]; exact hv, by rw [he]; rfl, ?_⟩
  rw [he, hv]
  intro hcontra
  simp at hcontra


/-! ## Claim C4: binary-safe bulk decode -/

/-- C4 (amended).  A well-formed Bulk frame with non-negative declared length,
CRLF, exactly that many payload bytes and a terminating CRLF decodes to the
payload unchanged — provided the payload is valid UTF-8 (the implementation
stores bulk payloads in a Rust `String` and rejects other byte sequences, so
the decode path is not binary-safe). -/
theorem credis_C4 (payload : List Nat) (h1 : utf8Valid payload = true)
    (h2 : payload.length < 2 ^ 63) :
    parse_bulk (natDecimal payload.length ++ 13 :: 10 :: (payload ++ 13 :: 10 :: []))
      = some (.ok (.Bulk (some payload),
          (natDecimal payload.length).length + 2 + payload.length + 2))
    ∧ readnext_resp
        (36 :: (natDecimal payload.length ++ 13 :: 10 :: (payload ++ 13 :: 10 :: [])))
      = some (.ok (.Bulk (some payload),
          (natDecimal payload.length).length + 2 + payload.length + 2)) := by
  constructor
  · exact parse_bulk_spec payload [] h1 h2
  · have hd := flat_decode (Resp.Bulk (some payload)) (by simp [wfFlat, h1]; omega) [] rfl
    rw [List.append_nil] at hd
    have hform : (Resp.Bulk (some payload)).encode
        = 36 :: (natDecimal payload.length ++ 13 :: 10 :: (payload ++ 13 :: 10 :: [])) := by
      simp [Resp.encode]
    have hlen : (Resp.Bulk (some payload)).encode.length - 1
        = (natDecimal payload.length).length + 2 + payload.length + 2 := by
      simp only [Resp.encode, List.length_cons, List.length_append, List.length_nil]
      omega
    rw [hlen] at hd
    rw [hform] at hd
    exact hd

/-- Witness for C4 at the concrete payload `"ab"`. -/
theorem credis_C4_witness :
    parse_bulk (natDecimal (strB "ab").length ++ 13 :: 10 :: (strB "ab" ++ 13 :: 10 :: []))
      = some (.ok (.Bulk (some (strB "ab")),
          (natDecimal (strB "ab").length).length + 2 + (strB "ab").length + 2))
    ∧ readnext_resp
        (36 :: (natDecimal (strB "ab").length ++ 13 :: 10 :: (strB "ab" ++ 13 :: 10 :: [])))
      = some (.ok (.Bulk (some (strB "ab")),
          (natDecimal (strB "ab").length).length + 2 + (strB "ab").length + 2)) :=
  credis_C4 (strB "ab") (by decide) (by decide)

/-- Counterexample to C4 as stated: the well-formed frame `$1\r\n<0xFF>\r\n`
carries the arbitrary byte `0xFF`, but `parse_bulk` rejects it with an
InvalidData error, and `readnext_resp` on the full frame panics (the debug
print unwraps `from_utf8` of the whole input). -/
theorem credis_C4_counterexample :
    parse_bulk [49, 13, 10, 255, 13, 10]
      = some (.error (.InvalidData "Invalid UTF-8 in bulk string"))
    ∧ readnext_resp [36, 49, 13, 10, 255, 13, 10] = none := by
  constructor
  · rfl
  · simp [readnext_resp, show utf8Valid [36, 49, 13, 10, 255, 13, 10] = false from by decide]

/-! ## Claim C10: decoder totality -/

/-- C10.  The decoder is not total: on the frame `$-2\r\n` (declared length
negative but not `-1`) `parse_bulk` panics — in a debug build the addition
`data_start + len as usize` overflows, in a release build the later slice
`b[data_start..data_end]` has start greater than end — and on the non-UTF-8
input `+<0xFF>` the entry debug print `from_utf8(b).unwrap()` panics.  Both
evaluate to the model's panic value `none` rather than to a `RespError`. -/
theorem credis_C10 :
    readnext_resp [36, 45, 50, 13, 10] = none
    ∧ readnext_resp [43, 255] = none := by
  constructor
  · simp [readnext_resp, parse_bulk, Kind.from_byte, find_clrf_index, parseIsize,
      parseSigned, parseNatDigits, isDigit, digitsToNat, USIZE]
    decide
  · simp [readnext_resp, show utf8Valid [43, 255] = false from by decide]


/-! ## Claim C2: lazy expiry boundary -/

/-- C2 (amended).  On `get`, an entry whose expiry is strictly before the
current time is removed and null is returned; an entry whose expiry equals
(or exceeds) the current time is served normally — the comparison in the code
is `timeout < now`, so an expiry equal to the current instant is not yet
expired. -/
theorem credis_C2 (cache : Cache) (info : Info) (now : Nat) (key : List Nat)
    (q : Query) (t : Nat) (hq : cacheGet cache key = some q) (ht : q.expiry = some t) :
    (t < now →
      execute_command (.Get key) cache info now = .ok ([.Null], cacheRemove cache key, info))
    ∧ (now ≤ t →
      execute_command (.Get key) cache info now = .ok ([.Bulk (some q.value)], cache, info)) := by
  constructor
  · intro h
    simp [execute_command, hq, ht, h]
  · intro h
    simp [execute_command, hq, ht, show ¬(t < now) by omega]

/-- Witness for C2: an entry with expiry 3 read at time 5 is evicted, and the
same entry read at time 3 (its exact expiry instant) is served. -/
theorem credis_C2_witness :
    (execute_command (.Get (strB "k")) [(strB "k", ⟨strB "v", 0, some 3⟩)] ⟨.Master, [], 0⟩ 5
      = .ok ([.Null], cacheRemove [(strB "k", ⟨strB "v", 0, some 3⟩)] (strB "k"),
          ⟨.Master, [], 0⟩))
    ∧ (execute_command (.Get (strB "k")) [(strB "k", ⟨strB "v", 0, some 3⟩)] ⟨.Master, [], 0⟩ 3
      = .ok ([.Bulk (some (strB "v"))], [(strB "k", ⟨strB "v", 0, some 3⟩)],
          ⟨.Master, [], 0⟩)) :=
  ⟨(credis_C2 _ ⟨.Master, [], 0⟩ 5 (strB "k") ⟨strB "v", 0, some 3⟩ 3
      (by decide) (by decide)).1 (by omega),
    (credis_C2 _ ⟨.Master, [], 0⟩ 3 (strB "k") ⟨strB "v", 0, some 3⟩ 3
      (by decide) (by decide)).2 (by omega)⟩

/-- Counterexample to C2 as stated: an entry whose expiry equals the current
time (both 5) is not treated as expired — `get` returns the value and leaves
the store unchanged, where the claim requires removal and null. -/
theorem credis_C2_counterexample :
    execute_command (.Get (strB "k")) [(strB "k", ⟨strB "v", 0, some 5⟩)] ⟨.Master, [], 0⟩ 5
      = .ok ([.Bulk (some (strB "v"))], [(strB "k", ⟨strB "v", 0, some 5⟩)], ⟨.Master, [], 0⟩)
    ∧ execute_command (.Get (strB "k")) [(strB "k", ⟨strB "v", 0, some 5⟩)] ⟨.Master, [], 0⟩ 5
      ≠ .ok ([.Null], [], ⟨.Master, [], 0⟩) := by
  have h1 : execute_command (.Get (strB "k"))
      [(strB "k", ⟨strB "v", 0, some 5⟩)] ⟨.Master, [], 0⟩ 5
      = .ok ([.Bulk (some (strB "v"))], [(strB "k", ⟨strB "v", 0, some 5⟩)],
        ⟨.Master, [], 0⟩) := rfl
  refine ⟨h1, ?_⟩
  rw [h1]
  intro hcontra
  simp at hcontra

/-! ## Claim C3: INFO response format -/

/-- C3.  Evaluation of the code at the failing input: `INFO REPLICATION` on a
primary with replication id `R` and offset 0 yields a single Bulk whose text
doubles the role prefix — `role:role:master` — because the `format!` string
already writes `role:` and `Info::role` returns a string that starts with
`role:` again.  The claim (and §6 of the spec) requires the bare word after
one `role:`. -/
theorem credis_C3 :
    execute_command (.Info (some (strB "REPLICATION"))) [] ⟨.Master, strB "R", 0⟩ 0
      = .ok ([.Bulk (some (strB
          "# Replication\nrole:role:master\nmaster_replid:R\nmaster_repl_offset:0"))],
          [], ⟨.Master, strB "R", 0⟩)
    ∧ execute_command (.Info (some (strB "REPLICATION"))) [] ⟨.Master, strB "R", 0⟩ 0
      ≠ .ok ([.Bulk (some (strB
          "# Replication\nrole:master\nmaster_replid:R\nmaster_repl_offset:0"))],
          [], ⟨.Master, strB "R", 0⟩) := by
  have h1 : execute_command (.Info (some (strB "REPLICATION"))) [] ⟨.Master, strB "R", 0⟩ 0
      = .ok ([.Bulk (some (strB
          "# Replication\nrole:role:master\nmaster_replid:R\nmaster_repl_offset:0"))],
          [], ⟨.Master, strB "R", 0⟩) := by
    simp [execute_command, Info.replication, Info.roleString, strB, natDecimal]
  refine ⟨h1, ?_⟩
  rw [h1]
  intro hcontra
  simp [strB] at hcontra

/-! ## Claim C5: GET absence and eviction idempotence -/

/-- C5.  A never-written key yields null and leaves the store untouched; an
expired entry (expiry strictly before now, the code's eviction condition) is
removed with null returned, after which the key is absent and a second
immediate `get` also returns null on the unchanged store. -/
theorem credis_C5 (cache : Cache) (info : Info) (now : Nat) (key : List Nat) :
    (cacheGet cache key = none →
      execute_command (.Get key) cache info now = .ok ([.Null], cache, info))
    ∧ (∀ q t, cacheGet cache key = some q → q.expiry = some t → t < now →
      execute_command (.Get key) cache info now
          = .ok ([.Null], cacheRemove cache key, info)
        ∧ cacheGet (cacheRemove cache key) key = none
        ∧ execute_command (.Get key) (cacheRemove cache key) info now
          = .ok ([.Null], cacheRemove cache key, info)) := by
  have habsent : ∀ c : Cache, cacheGet (cacheRemove c key) key = none := by
    intro c
    induction c with
    | nil => rfl
    | cons p rest ih =>
      by_cases hk : p.1 = key
      · simp [cacheRemove, hk, ih]
      · simp [cacheRemove, hk, cacheGet, ih]
  constructor
  · intro h
    simp [execute_command, h]
  · intro q t hq ht hlt
    refine ⟨by simp [execute_command, hq, ht, hlt], habsent cache, ?_⟩
    simp [execute_command, habsent cache]

/-- Witness for C5: a never-written key, and an expired entry evicted then
read again. -/
theorem credis_C5_witness :
    (execute_command (.Get (strB "nope")) [] ⟨.Master, [], 0⟩ 7
      = .ok ([.Null], [], ⟨.Master, [], 0⟩))
    ∧ (execute_command (.Get (strB "k")) [(strB "k", ⟨strB "v", 0, some 3⟩)]
          ⟨.Master, [], 0⟩ 7
        = .ok ([.Null], cacheRemove [(strB "k", ⟨strB "v", 0, some 3⟩)] (strB "k"),
            ⟨.Master, [], 0⟩)
      ∧ cacheGet (cacheRemove [(strB "k", ⟨strB "v", 0, some 3⟩)] (strB "k")) (strB "k")
          = none
      ∧ execute_command (.Get (strB "k"))
            (cacheRemove [(strB "k", ⟨strB "v", 0, some 3⟩)] (strB "k")) ⟨.Master, [], 0⟩ 7
          = .ok ([.Null], cacheRemove [(strB "k", ⟨strB "v", 0, some 3⟩)] (strB "k"),
              ⟨.Master, [], 0⟩)) :=
  ⟨(credis_C5 [] ⟨.Master, [], 0⟩ 7 (strB "nope")).1 (by decide),
    (credis_C5 [(strB "k", ⟨strB "v", 0, some 3⟩)] ⟨.Master, [], 0⟩ 7 (strB "k")).2
      ⟨strB "v", 0, some 3⟩ 3 (by decide) (by decide) (by omega)⟩


/-! ## Claim C6: GET arity validation -/

/-- C6 (amended).  Parsing yields `Get(key)` exactly when the element at index
1 is a present Bulk — regardless of how many arguments follow, because
`parse_get` only inspects `args.get(1)`; extra trailing arguments are ignored,
not rejected.  Anything without a present Bulk at index 1 is
InvalidArguments. -/
theorem credis_C6 :
    (∀ (a : Resp) (key : List Nat) (rest : List Resp),
      parse_get (a :: Resp.Bulk (some key) :: rest) = .ok (.Get key))
    ∧ (∀ args : List Resp, (∀ key, args[1]? ≠ some (Resp.Bulk (some key))) →
      parse_get args = .error (.InvalidArguments "Usage: GET <key>"))
    ∧ (∀ (key : List Nat) (rest : List Resp),
      parse_command (Resp.Bulk (some (strB "GET")) :: Resp.Bulk (some key) :: rest)
        = .ok (.Get key)) := by
  have hget : ∀ (a : Resp) (key : List Nat) (rest : List Resp),
      parse_get (a :: Resp.Bulk (some key) :: rest) = .ok (.Get key) := by
    intro a key rest
    simp [parse_get]
  refine ⟨hget, ?_, ?_⟩
  · intro args hno
    rcases h2 : args[1]? with _ | r
    · simp [parse_get, h2]
    · rcases r with s | i | o | l | _
      · simp [parse_get, h2]
      · simp [parse_get, h2]
      · rcases o with _ | d
        · simp [parse_get, h2]
        · exact absurd h2 (hno d)
      · simp [parse_get, h2]
      · simp [parse_get, h2]
  · intro key rest
    have hup : asciiUpper (strB "GET") = strB "GET" := by decide
    simp only [parse_command, List.head?_cons, hup]
    rw [if_neg (by decide), if_neg (by decide)]
    simp only [if_true]
    exact hget _ key rest

/-- Witness for C6: a malformed `GET` (integer argument) is rejected, and a
well-formed one parses. -/
theorem credis_C6_witness :
    parse_get [Resp.Bulk (some (strB "GET")), Resp.Integer 3]
      = .error (.InvalidArguments "Usage: GET <key>")
    ∧ parse_command [Resp.Bulk (some (strB "GET")), Resp.Bulk (some (strB "k"))]
      = .ok (.Get (strB "k")) :=
  ⟨credis_C6.2.1 [Resp.Bulk (some (strB "GET")), Resp.Integer 3] (fun key => by simp),
    credis_C6.2.2 (strB "k") []⟩

/-- Counterexample to C6 as stated: `GET k x` has an extra trailing argument,
yet it parses successfully to `Get "k"` instead of yielding
InvalidArguments. -/
theorem credis_C6_counterexample :
    parse_command [Resp.Bulk (some (strB "GET")), Resp.Bulk (some (strB "k")),
        Resp.Bulk (some (strB "x"))] = .ok (.Get (strB "k"))
    ∧ ∀ e, parse_command [Resp.Bulk (some (strB "GET")), Resp.Bulk (some (strB "k")),
        Resp.Bulk (some (strB "x"))] ≠ .error e := by
  have h1 : parse_command [Resp.Bulk (some (strB "GET")), Resp.Bulk (some (strB "k")),
      Resp.Bulk (some (strB "x"))] = .ok (.Get (strB "k")) := rfl
  refine ⟨h1, fun e hcontra => ?_⟩
  rw [h1] at hcontra
  simp at hcontra

/-! ## Claim C7: REPLCONF parsing -/

/-- C7 (amended).  Scanning left to right, the first `listening-port <port>`
pair short-circuits and returns that port immediately; repeated `capa <name>`
pairs accumulate into a deduplicated set (a duplicate `capa psync2` leaves the
set at exactly `[psync2]`); an unrecognized sub-verb yields InvalidArguments —
but a trailing sub-verb with no following value is NOT an error: the iterator
yields `None`, the loop ends, and the accumulated capability set is returned
as `Ok`. -/
theorem credis_C7 :
    (∀ (port : List Nat) (rest : List Resp) (caps : List (List Nat)),
      replconf_go (Resp.Bulk (some (strB "listening-port")) :: Resp.Bulk (some port) :: rest)
          caps = .ok (.Replconf (.Port port)))
    ∧ parse_replconf [Resp.Bulk (some (strB "REPLCONF")), Resp.Bulk (some (strB "capa")),
        Resp.Bulk (some (strB "psync2")), Resp.Bulk (some (strB "capa")),
        Resp.Bulk (some (strB "psync2"))] = .ok (.Replconf (.Capa [strB "psync2"]))
    ∧ (∀ (v : List Nat) (rest : List Resp) (caps : List (List Nat)),
        asciiLower v ≠ strB "capa" → asciiLower v ≠ strB "listening-port" →
        replconf_go (Resp.Bulk (some v) :: rest) caps
          = .error (.InvalidArguments "Unrecognized arguments"))
    ∧ (∀ caps, replconf_go [Resp.Bulk (some (strB "capa"))] caps
        = .ok (.Replconf (.Capa caps))) := by
  refine ⟨?_, rfl, ?_, ?_⟩
  · intro port rest caps
    rfl
  · intro v rest caps h1 h2
    rw [replconf_go.eq_def]
    simp only []
    rw [if_neg h1, if_neg h2]
  · intro caps
    rfl

/-- Witness for C7: the short-circuit on `listening-port 6380` even with junk
after it, and the unrecognized sub-verb error. -/
theorem credis_C7_witness :
    replconf_go [Resp.Bulk (some (strB "listening-port")), Resp.Bulk (some (strB "6380")),
        Resp.Bulk (some (strB "junk"))] [] = .ok (.Replconf (.Port (strB "6380")))
    ∧ replconf_go [Resp.Bulk (some (strB "bogus"))] []
      = .error (.InvalidArguments "Unrecognized arguments") :=
  ⟨credis_C7.1 (strB "6380") [Resp.Bulk (some (strB "junk"))] [],
    credis_C7.2.2.1 (strB "bogus") [] [] (by decide) (by decide)⟩

/-- Counterexample to C7 as stated: the malformed pair `REPLCONF capa` (a
trailing sub-verb with no value) does not yield InvalidArguments — it returns
`Ok(Replconf(Capa ∅))`. -/
theorem credis_C7_counterexample :
    parse_replconf [Resp.Bulk (some (strB "REPLCONF")), Resp.Bulk (some (strB "capa"))]
      = .ok (.Replconf (.Capa []))
    ∧ ∀ e, parse_replconf [Resp.Bulk (some (strB "REPLCONF")),
        Resp.Bulk (some (strB "capa"))] ≠ .error e := by
  have h1 : parse_replconf [Resp.Bulk (some (strB "REPLCONF")),
      Resp.Bulk (some (strB "capa"))] = .ok (.Replconf (.Capa [])) := rfl
  refine ⟨h1, fun e hcontra => ?_⟩
  rw [h1] at hcontra
  simp at hcontra

/-! ## Claim C8: PSYNC initial query -/

/-- C8.  With first argument literally `?`, parsing succeeds exactly when the
second argument is literally `-1` (anything else is InvalidArguments), and
executing the initial query returns the single simple status
`FULLRESYNC <replid> 0`. -/
theorem credis_C8 :
    (∀ (a : Resp) (off : List Nat),
      (off = strB "-1" →
        parse_psync [a, Resp.Bulk (some (strB "?")), Resp.Bulk (some off)]
          = .ok (.Psync (.Question off)))
      ∧ (off ≠ strB "-1" →
        parse_psync [a, Resp.Bulk (some (strB "?")), Resp.Bulk (some off)]
          = .error (.InvalidArguments "Byte offset should be -1 when querying for replid")))
    ∧ (∀ (x : List Nat) (cache : Cache) (info : Info) (now : Nat),
      execute_command (.Psync (.Question x)) cache info now
        = .ok ([.SimpleString (strB "FULLRESYNC " ++ info.master_replid ++ strB " 0")],
            cache, info)) := by
  constructor
  · intro a off
    constructor
    · intro h
      subst h
      simp only [parse_psync]
      rw [if_pos (by decide)]
      simp only [if_true]
    · intro h
      simp only [parse_psync]
      rw [if_pos (by decide), if_neg h]
  · intro x cache info now
    rfl

/-- Witness for C8: `PSYNC ? -1` parses and executes to `+FULLRESYNC R 0`;
`PSYNC ? 0` is InvalidArguments. -/
theorem credis_C8_witness :
    parse_psync [Resp.Bulk (some (strB "PSYNC")), Resp.Bulk (some (strB "?")),
        Resp.Bulk (some (strB "-1"))] = .ok (.Psync (.Question (strB "-1")))
    ∧ parse_psync [Resp.Bulk (some (strB "PSYNC")), Resp.Bulk (some (strB "?")),
        Resp.Bulk (some (strB "0"))]
      = .error (.InvalidArguments "Byte offset should be -1 when querying for replid")
    ∧ execute_command (.Psync (.Question (strB "-1"))) [] ⟨.Master, strB "R", 0⟩ 0
      = .ok ([.SimpleString (strB "FULLRESYNC R 0")], [], ⟨.Master, strB "R", 0⟩) :=
  ⟨(credis_C8.1 (Resp.Bulk (some (strB "PSYNC"))) (strB "-1")).1 rfl,
    (credis_C8.1 (Resp.Bulk (some (strB "PSYNC"))) (strB "0")).2 (by decide),
    credis_C8.2 (strB "-1") [] ⟨.Master, strB "R", 0⟩ 0⟩

/-! ## Claim C9: replication offset monotonicity -/

/-- C9 (amended).  The replication offset is NOT monotonically non-decreasing:
every command other than `Psync(ContinuationId)` leaves it unchanged, but
`Psync(ContinuationId)` overwrites it with the caller-supplied parsed value,
which may be strictly smaller than the current offset. -/
theorem credis_C9 :
    (∀ (cmd : Command) (cache : Cache) (info : Info) (now : Nat)
        (r : List Resp × Cache × Info),
      execute_command cmd cache info now = .ok r →
      (∀ id off, cmd ≠ .Psync (.Id id off)) →
      r.2.2.master_repl_offset = info.master_repl_offset)
    ∧ (∀ (id off : List Nat) (n : Nat) (cache : Cache) (info : Info) (now : Nat),
      parseU64 off = some n →
      execute_command (.Psync (.Id id off)) cache info now
        = .ok ([.SimpleString (strB "REPLCONF ACK " ++ natDecimal n)], cache,
            { info with master_replid := id, master_repl_offset := n })) := by
  constructor
  · intro cmd cache info now r h hne
    cases cmd with
    | Echo a =>
      simp only [execute_command, Except.ok.injEq] at h
      rw [← h]
    | Ping =>
      simp only [execute_command, Except.ok.injEq] at h
      rw [← h]
    | Get key =>
      simp only [execute_command] at h
      split at h
      · split at h
        · split at h <;> (simp only [Except.ok.injEq] at h; rw [← h])
        · simp only [Except.ok.injEq] at h
          rw [← h]
      · simp only [Except.ok.injEq] at h
        rw [← h]
    | Set key value timeout =>
      simp only [execute_command, Except.ok.injEq] at h
      rw [← h]
    | Info category =>
      simp only [execute_command] at h
      split at h <;> (simp only [Except.ok.injEq] at h; rw [← h])
    | Replconf c =>
      cases c with
      | Port p =>
        simp only [execute_command, Except.ok.injEq] at h
        rw [← h]
      | Capa l =>
        simp only [execute_command, Except.ok.injEq] at h
        rw [← h]
    | Psync p =>
      cases p with
      | Question x =>
        simp only [execute_command, Except.ok.injEq] at h
        rw [← h]
      | Id id off => exact absurd rfl (hne id off)
  · intro id off n cache info now h
    simp [execute_command, h]

/-- Witness for C9: `PING` leaves the offset at 5, and `PSYNC y 3` sets it to
the parsed 3. -/
theorem credis_C9_witness :
    (([Resp.SimpleString (strB "PONG")], ([] : Cache),
        (⟨.Master, [], 5⟩ : Info)).2.2.master_repl_offset
      = (⟨.Master, [], 5⟩ : Info).master_repl_offset)
    ∧ execute_command (.Psync (.Id (strB "y") (strB "3"))) [] ⟨.Master, strB "x", 5⟩ 0
      = .ok ([.SimpleString (strB "REPLCONF ACK " ++ natDecimal 3)], [],
          { role := .Master, master_replid := strB "y", master_repl_offset := 3 }) :=
  ⟨credis_C9.1 .Ping [] ⟨.Master, [], 5⟩ 0 _ rfl (fun id off => by simp),
    credis_C9.2 (strB "y") (strB "3") 3 [] ⟨.Master, strB "x", 5⟩ 0 (by decide)⟩

/-- Counterexample to C9 as stated: executing `Psync(ContinuationId("y", "3"))`
on a state with offset 5 sets the offset to 3, strictly smaller than before. -/
theorem credis_C9_counterexample :
    execute_command (.Psync (.Id (strB "y") (strB "3"))) [] ⟨.Master, strB "x", 5⟩ 0
      = .ok ([.SimpleString (strB "REPLCONF ACK 3")], [], ⟨.Master, strB "y", 3⟩)
    ∧ (3 : Nat) < 5 := by
  constructor
  · simp [execute_command, parseU64, parseNatDigits, isDigit, digitsToNat, strB, natDecimal]
  · omega


end Credis

